import Mathlib

/-!
# Verification of the design-token resolution engine (`src/theme/plugin.js`)

Shallow embedding of the token engine: JSON-like values (`JVal`), the
depth-capped reference resolver `resolveColorReference`, the shadow
materializer `processShadowValue`, the namespace flattener `flattenTokens`,
and the text-reference rewriter `resolveCSSReferences`.

JavaScript strings are modelled as Lean `String`s whose character content is
accessed through `String.data`; all string operations used by the source
(`startsWith`, `endsWith`, `slice(1,-1)`, `split`, `includes`) are defined
directly on the character list so that every proof obligation reduces to
list reasoning.  JSON numbers are modelled as `Int` (the token documents only
contain integral numbers where it matters).  JavaScript `undefined` is a
distinct value `JVal.undef`, produced by property access on a missing key.
-/

/-- A JavaScript/JSON value.  Objects are insertion-ordered association
lists (string key to value), mirroring the insertion-order iteration of
`Object.entries` used by the source. -/
inductive JVal where
  | str (s : String)
  | num (n : Int)
  | bool (b : Bool)
  | null
  | undef
  | arr (xs : List JVal)
  | obj (fields : List (String × JVal))

/-- JavaScript truthiness: `""`, `0`, `false`, `null`, `undefined` are falsy;
every object and array is truthy. -/
def truthy : JVal → Bool
  | .str s => s.data ≠ []
  | .num n => n ≠ 0
  | .bool b => b
  | .null => false
  | .undef => false
  | .arr _ => true
  | .obj _ => true

/-- First-match association-list lookup (JavaScript object keys are unique,
so first match is the only match). -/
def lookupField : List (String × JVal) → String → Option JVal
  | [], _ => none
  | (k', v) :: rest, k => if k' = k then some v else lookupField rest k

/-- Property lookup `v[k]` restricted to own fields of plain objects;
`none` models JavaScript `undefined` for a missing key or a non-object
receiver (string/number prototype properties are never consulted by the
source: the keys it reads — `$type`, `$value`, shadow fields — do not
collide with prototype members). -/
def getProp : JVal → String → Option JVal
  | .obj fs, k => lookupField fs k
  | _, _ => none

/-- Total property access: missing property yields `undefined`, as in
JavaScript on a non-null receiver. -/
def jget (v : JVal) (k : String) : JVal :=
  (getProp v k).getD (.undef)

/-- Property-access errors: `value.k` on `null`/`undefined` throws a
TypeError in JavaScript. -/
inductive JsErr where
  | typeError
  | noFuel
  deriving DecidableEq, Repr

/-- Property access as executed by the source: throws a TypeError on a
`null`/`undefined` receiver, otherwise yields the field (or `undefined`). -/
def jsGet : JVal → String → Except JsErr JVal
  | .null, _ => .error .typeError
  | .undef, _ => .error .typeError
  | v, k => .ok (jget v k)

/-- `typeof v === "object"` (true for plain objects, arrays and `null`). -/
def typeofObject : JVal → Bool
  | .obj _ => true
  | .arr _ => true
  | .null => true
  | _ => false

/-- Inside `Array.prototype.join`, `null`/`undefined` elements coerce to the
empty string (unlike top-level `String(null) = "null"`). -/
def isNullish : JVal → Bool
  | .null => true
  | .undef => true
  | _ => false

/-- JavaScript `String(v)` coercion (as performed by template literals and
by `String.prototype.replace` on a callback's return value). -/
def jsToString : JVal → String
  | .str s => s
  | .num n => toString n
  | .bool b => cond b "true" "false"
  | .null => "null"
  | .undef => "undefined"
  | .obj _ => "[object Object]"
  | .arr xs =>
      String.intercalate ","
        (xs.attach.map fun ⟨x, _⟩ => if isNullish x then "" else jsToString x)
termination_by v => sizeOf v
decreasing_by
  have := List.sizeOf_lt_of_mem ‹x ∈ xs›
  simp only [JVal.arr.sizeOf_spec]
  omega

theorem jsToString_str (s : String) : jsToString (.str s) = s := by
  simp [jsToString]

theorem jsToString_num (n : Int) : jsToString (.num n) = toString n := by
  simp [jsToString]

theorem jsToString_bool (b : Bool) :
    jsToString (.bool b) = cond b "true" "false" := by
  simp [jsToString]

theorem jsToString_null : jsToString .null = "null" := by simp [jsToString]

theorem jsToString_undef : jsToString .undef = "undefined" := by
  simp [jsToString]

theorem jsToString_obj (fs : List (String × JVal)) :
    jsToString (.obj fs) = "[object Object]" := by
  simp [jsToString]

/-- `s.split(sep)` for a single-character separator, on character lists.
Always returns at least one (possibly empty) group, as in JavaScript. -/
def splitChar (sep : Char) : List Char → List (List Char)
  | [] => [[]]
  | c :: rest =>
    if c = sep then [] :: splitChar sep rest
    else
      match splitChar sep rest with
      | [] => [[c]]
      | g :: gs => (c :: g) :: gs

/-- `s.startsWith("{") && s.endsWith("}")`: the bracketed-reference test of
the source (first character `{`, last character `}`). -/
def isBraced (s : String) : Bool :=
  s.data.head? = some '{' && s.data.getLast? = some '}'

/-- Wrap a reference name in braces: `"{" + r + "}"`. -/
def braceStr (r : String) : String :=
  ⟨'{' :: r.data ++ ['}']⟩

/-- `s.slice(1, -1)`: strip the first and last character. -/
def sliceInner (s : String) : String :=
  ⟨(s.data.drop 1).dropLast⟩

example : truthy (.str "") = false := by decide
example : truthy (.obj []) = true := by decide
example : splitChar '.' "a.b".data = ["a".data, "b".data] := by decide
example : splitChar '-' "--x".data = [[], [], "x".data] := by decide
example : sliceInner (braceStr "a.b") = "a.b" := by decide
example : jsToString (.num 42) = "42" := by simp [jsToString_num]; decide
example : jsToString (.str "#fff") = "#fff" := jsToString_str _

/-! ## Reference Resolver (`resolveColorReference`, plugin.js lines 30–71) -/

/-- Diagnostics emitted through `console.warn` by `resolveColorReference`. -/
inductive Diag where
  | depthExceeded (value : JVal)
  | refNotFound (reference : String)
  | refInvalid (reference : String)

/-- The segment-by-segment walk of the `for (const part of parts)` loop in
`resolveColorReference` (lines 47–54): fail when the current node is falsy
or the next field is missing/falsy, else descend. -/
def walkTokens : JVal → List (List Char) → Option JVal
  | current, [] => some current
  | current, part :: rest =>
      if truthy current && truthy (jget current ⟨part⟩) then
        walkTokens (jget current ⟨part⟩) rest
      else
        none

/-- `current.$type === "color"` (strict equality against a string literal). -/
def isColorTyped (current : JVal) : Bool :=
  match jget current "$type" with
  | .str s => s = "color"
  | _ => false

/-- Body of `resolveColorReference`, in fuel form.  The source guards the
recursion with `if (depth > 10) return value` and recurses with `depth + 1`;
here `fuel = 11 - depth`, so the guard `depth > 10` is exactly `fuel = 0`
and each recursive call decreases the fuel by one.  The second component
collects the `console.warn` diagnostics of the call tree. -/
def resolveGo (allTokens : JVal) : Nat → JVal → JVal × List Diag
  | 0, value => (value, [.depthExceeded value])
  | fuel+1, value =>
      match value with
      | .str s =>
          if isBraced s then
            let reference := sliceInner s
            let parts := splitChar '.' reference.data
            match walkTokens allTokens parts with
            | none => (.str s, [.refNotFound reference])
            | some current =>
                if truthy current && truthy (jget current "$value") then
                  resolveGo allTokens fuel (jget current "$value")
                else if truthy current && isColorTyped current then
                  (jget current "$value", [])
                else
                  match current with
                  | .str s' => resolveGo allTokens fuel (.str s')
                  | _ => (.str s, [.refInvalid reference])
          else
            (.str s, [])
      | v => (v, [])

/-- `resolveColorReference(value, allTokens, depth)` (default `depth = 0`):
resolves bracketed `{a.b.c}` references through the token store, capped at
reference depth 10. -/
def resolveColorReference (value allTokens : JVal) (depth : Nat := 0) :
    JVal × List Diag :=
  resolveGo allTokens (11 - depth) value

example :
    resolveColorReference (.str "#123") (.obj []) = (.str "#123", []) := rfl
example :
    resolveColorReference (.str "{a}")
      (.obj [("a", .obj [("$type", .str "color"), ("$value", .str "#12")])]) =
      (.str "#12", []) := rfl
example :
    resolveColorReference (.str "{a.b}")
      (.obj [("a", .obj [("b", .obj [("$value", .str "{c}")])]),
             ("c", .obj [("$type", .str "color"), ("$value", .str "#9")])]) =
      (.str "#9", []) := rfl
example :
    resolveColorReference (.str "{missing}") (.obj []) =
      (.str "{missing}", [.refNotFound "missing"]) := rfl

/-! ## Shadow materializer (`processShadowValue`, plugin.js lines 74–102) -/

/-- `shadow.k || dflt` followed by template-literal interpolation: a truthy
field interpolates its string coercion, a missing or falsy field is replaced
by the default string. -/
def shadowField (shadow : JVal) (k : String) (dflt : String) : String :=
  let v := jget shadow k
  if truthy v then jsToString v else dflt

/-- The element mapper of `processShadowValue`: strings pass through,
non-null `typeof "object"` values (plain objects and arrays) render as
`"{offsetX} {offsetY} {blur} {spread} {color}"` with `||`-defaults, and
everything else renders as the literal string `"none"`. -/
def renderShadowElem (shadow : JVal) : String :=
  match shadow with
  | .str s => s
  | sh =>
      if typeofObject sh && !isNullish sh then
        shadowField sh "offsetX" "0px" ++ " " ++
        shadowField sh "offsetY" "0px" ++ " " ++
        shadowField sh "blur" "0px" ++ " " ++
        shadowField sh "spread" "0px" ++ " " ++
        shadowField sh "color" "transparent"
      else
        "none"

/-- `processShadowValue(value)`: non-arrays are returned verbatim; arrays
are mapped elementwise through `renderShadowElem` and joined with `", "`. -/
def processShadowValue : JVal → JVal
  | .arr xs => .str (String.intercalate ", " (xs.map renderShadowElem))
  | v => v

example :
    processShadowValue
      (.arr [.obj [("offsetX", .str "1px"), ("color", .str "red")]]) =
      .str "1px 0px 0px 0px red" := by
  simp [processShadowValue, renderShadowElem, shadowField, jget, getProp,
    lookupField, typeofObject, isNullish, truthy, jsToString_str,
    jsToString_undef]
  decide

example : processShadowValue (.str "plain") = .str "plain" := rfl
example :
    processShadowValue (.arr [.str "inset 0 0", .num 3, .null]) =
      .str "inset 0 0, none, none" := by
  simp [processShadowValue, renderShadowElem, typeofObject, isNullish]
  decide

/-! ## Flattener (`flattenTokens`, plugin.js lines 105–125)

ECMAScript own-property order: `Object.entries` (and every other own-key
enumeration) lists canonical array-index keys (`"0"`, `"1"`, …, below
`2^32 - 1`, no leading zeros) first, in ascending numeric order, and the
remaining string keys in property-creation order.  The embedding's
convention: the field list of a `.obj` is the object's *enumeration order*.
For objects built by `JSON.parse` this is exactly what `Object.entries`
yields, so `jsEntries` reads the stored list; for objects built by
successive assignment (the flattener's accumulator), `updateKey` below
maintains the convention by inserting a fresh integer-like key into the
ascending-integer prefix rather than appending it. -/

/-- The numeric value of an all-digit key. -/
def keyNumVal (k : String) : Nat :=
  k.data.foldl (fun acc c => acc * 10 + (c.toNat - 48)) 0

/-- A canonical array-index key per ECMAScript: a nonempty digit string
with no leading zero (except `"0"` itself) whose value is below
`2^32 - 1`.  Such keys enumerate before all other string keys, in
ascending numeric order. -/
def isArrayIndexKey (k : String) : Bool :=
  k.data ≠ [] && k.data.all (·.isDigit) &&
  (k.data = ['0'] || k.data.head? ≠ some '0') &&
  keyNumVal k < 4294967295

/-- `Object.entries(v)`: the enumeration-ordered fields of an object (see
the convention above), index/value pairs of an array, nothing for
primitives. -/
def jsEntries : JVal → List (String × JVal)
  | .obj fs => fs
  | .arr xs => xs.enum.map fun p => (toString p.1, p.2)
  | _ => []

/-- The flattened key for entry `key` under the prefix:
`prefix ? prefix + "-" + key : key` (an empty prefix is falsy). -/
def newKeyOf (pref key : String) : String :=
  if pref = "" then key else pref ++ "-" ++ key

/-- Insert a fresh array-index key at its ECMAScript enumeration position:
after the integer-like keys with smaller numeric value, before everything
else. -/
def insertIndexKey (k : String) (v : JVal) :
    List (String × JVal) → List (String × JVal)
  | [] => [(k, v)]
  | q :: rest =>
      if isArrayIndexKey q.1 && keyNumVal q.1 < keyNumVal k then
        q :: insertIndexKey k v rest
      else
        (k, v) :: q :: rest

/-- `result[newKey] = v` on a JavaScript object, producing the resulting
enumeration order: an existing key keeps its position and gets the new
value; a fresh integer-like key enters the ascending-integer prefix; any
other fresh key is appended. -/
def updateKey (result : List (String × JVal)) (k : String) (v : JVal) :
    List (String × JVal) :=
  if result.any (·.1 = k) then
    result.map fun p => if p.1 = k then (k, v) else p
  else if isArrayIndexKey k then
    insertIndexKey k v result
  else
    result ++ [(k, v)]

/-- The per-leaf materialization of `flattenTokens` (lines 111–117):
`$type === "color"` resolves through the store, `$type === "shadow"` renders
the shadow, every other type passes `$value` through. -/
def materializeLeaf (allTokens t v : JVal) : JVal :=
  match t with
  | .str s =>
      if s = "color" then (resolveColorReference v allTokens).1
      else if s = "shadow" then processShadowValue v
      else v
  | _ => v

/-- Loop body of `flattenTokens` over the entry list.  The fuel only bounds
the recursion depth (the source recursion is bounded by the input's nesting
depth, which the nested-inductive encoding cannot use structurally);
`.error .noFuel` never occurs when the fuel exceeds the nesting depth.
For each entry: if `value.$type && value.$value` (JavaScript truthiness;
property access throws a TypeError on `null`), emit the materialized leaf;
else if `typeof value === "object"`, recurse into the entry with the
extended prefix; otherwise skip the entry. -/
def flattenGo (allTokens : JVal) :
    Nat → List (String × JVal) → String → List (String × JVal) →
    Except JsErr (List (String × JVal))
  | 0, _, _, _ => .error .noFuel
  | _+1, [], _, result => .ok result
  | fuel+1, (key, value) :: rest, pref, result => do
      let newKey := newKeyOf pref key
      let t ← jsGet value "$type"
      if truthy t then
        let v ← jsGet value "$value"
        if truthy v then
          flattenGo allTokens fuel rest pref
            (updateKey result newKey (materializeLeaf allTokens t v))
        else
          if typeofObject value then do
            let r ← flattenGo allTokens fuel (jsEntries value) newKey result
            flattenGo allTokens fuel rest pref r
          else
            flattenGo allTokens fuel rest pref result
      else
        if typeofObject value then do
          let r ← flattenGo allTokens fuel (jsEntries value) newKey result
          flattenGo allTokens fuel rest pref r
        else
          flattenGo allTokens fuel rest pref result

/-- `flattenTokens(tokens, prefix, result, allTokens)`: flatten a nested
namespace into dash-joined keys with materialized values. -/
def flattenTokens (tokens : JVal) (pref : String)
    (result : List (String × JVal)) (allTokens : JVal) (fuel : Nat) :
    Except JsErr (List (String × JVal)) :=
  flattenGo allTokens fuel (jsEntries tokens) pref result

example :
    flattenTokens
      (.obj [("a", .obj [("b", .obj [("$type", .str "num"), ("$value", .num 7)])])])
      "" [] (.obj []) 5 = .ok [("a-b", .num 7)] := rfl
example :
    flattenTokens (.obj [("foo", .num 42)]) "" [] (.obj []) 5 = .ok [] := rfl
example :
    flattenTokens (.obj [("foo", .null)]) "" [] (.obj []) 5 =
      .error .typeError := rfl

/-! ## Text-Reference Rewriter (`resolveCSSReferences`, plugin.js 128–182) -/

/-- A character allowed inside the capture of `\{([^{}]+)\}`. -/
def nonBrace (c : Char) : Bool :=
  c ≠ '{' && c ≠ '}'

/-- Leftmost match of the regex `\{([^{}]+)\}` in a character list:
returns `(textBeforeMatch, capturedReference, textAfterMatch)`.  A `{` is a
match start only when the very next brace character is a `}` with at least
one character in between; a failed attempt advances the scan by one
character, exactly like the regex engine. -/
def findMatch : List Char → Option (List Char × List Char × List Char)
  | [] => none
  | c :: rest =>
      let adv : Option (List Char × List Char × List Char) →
          Option (List Char × List Char × List Char) :=
        fun r => r.map fun p => (c :: p.1, p.2.1, p.2.2)
      if c = '{' then
        let inner := rest.takeWhile nonBrace
        match rest.dropWhile nonBrace with
        | '}' :: tail =>
            if inner = [] then adv (findMatch rest) else some ([], inner, tail)
        | _ => adv (findMatch rest)
      else adv (findMatch rest)

/-- The walk of `resolveCSSReferences` (lines 135–150): like the resolver's
walk, but when a segment is missing it retries with the segment split at the
first `-` into a parent/child pair (`const [parent, child] = part.split("-")`
keeps only the first two pieces).  `none` models the early `return match`.
(The JavaScript fallback would throw on a falsy-`null` intermediate value;
that state is unreachable because every intermediate node was
truthiness-checked, and is modelled as a failed lookup.) -/
def walkCSS : JVal → List (List Char) → Option JVal
  | value, [] => some value
  | value, part :: rest =>
      if truthy value && truthy (jget value ⟨part⟩) then
        walkCSS (jget value ⟨part⟩) rest
      else if part.contains '-' then
        let pieces := splitChar '-' part
        let parent : String := ⟨pieces.getD 0 []⟩
        let child : String := ⟨pieces.getD 1 []⟩
        if truthy (jget value parent) && truthy (jget (jget value parent) child)
        then
          walkCSS (jget (jget value parent) child) rest
        else none
      else none

/-- `value.$value !== undefined`: the field exists and does not hold
`undefined` (a missing field reads as `undefined`). -/
def definedProp (v : JVal) (k : String) : Bool :=
  match jget v k with
  | .undef => false
  | _ => true

/-- Input selector for the combined rewriter recursion: a whole text to
scan, or a captured reference handed to the replacement callback. -/
inductive RCIn where
  | text (cs : List Char)
  | callb (inner : List Char)

/-- `resolveCSSReferences` as one fueled recursion.  `.text cs` is the
global `css.replace(/\{([^{}]+)\}/g, cb)` scan: each match is replaced by
the callback's result and scanning continues after the match (replacements
are not rescanned).  `.callb inner` is the replacement callback: walk the
dotted path (with dash fallback); on a found `$value`, recurse on it when it
is itself braced, else coerce it to a string; otherwise `var(--…)` for a
`--`-prefixed reference; otherwise treat a plain-string node as a further
reference; otherwise keep the original `{…}` text.  `none` means the fuel
ran out (the source recursion is unbounded and genuinely diverges on cyclic
stores). -/
def rcRun (allTokens : JVal) : Nat → RCIn → Option (List Char)
  | 0, _ => none
  | fuel+1, .text cs =>
      match findMatch cs with
      | none => some cs
      | some (pre, inner, rest) => do
          let rep ← rcRun allTokens fuel (.callb inner)
          let tail ← rcRun allTokens fuel (.text rest)
          pure (pre ++ rep ++ tail)
  | fuel+1, .callb inner =>
      let reference : String := ⟨inner⟩
      match walkCSS allTokens (splitChar '.' inner) with
      | none => some ('{' :: inner ++ ['}'])
      | some value =>
          if truthy value && definedProp value "$value" then
            match jget value "$value" with
            | .str s =>
                if isBraced s then rcRun allTokens fuel (.text s.data)
                else some s.data
            | w => some (jsToString w).data
          else if ['-', '-'].isPrefixOf inner then
            some ("var(" ++ reference ++ ")").data
          else
            match value with
            | .str s =>
                if isBraced s then rcRun allTokens fuel (.text s.data)
                else some s.data
            | _ => some ('{' :: inner ++ ['}'])

/-- `resolveCSSReferences(css, allTokens)`, with explicit fuel; `none`
means the source would not have terminated within that recursion budget. -/
def resolveCSSReferences (fuel : Nat) (css : String) (allTokens : JVal) :
    Option String :=
  (rcRun allTokens fuel (.text css.data)).map fun cs => ⟨cs⟩

example :
    resolveCSSReferences 3 "c: {foo-bar};"
      (.obj [("foo", .obj [("bar",
        .obj [("$type", .str "color"), ("$value", .str "#fff")])])]) =
      some "c: #fff;" := rfl
example : resolveCSSReferences 5 "\x7b--x\x7d" (.obj []) = some "\x7b--x\x7d" := rfl
example :
    resolveCSSReferences 3 "\x7b--x\x7d" (.obj [("--x", .obj [("k", .num 1)])]) =
      some "var(--x)" := rfl
example :
    resolveCSSReferences 9 "{a}"
      (.obj [("a", .obj [("$value", .str "{b}")]),
             ("b", .obj [("$value", .str "#1")])]) = some "#1" := rfl

/-! ## Reference chains

A reference chain is a list of reference names `[r₀, …, rₖ₋₁]` such that
walking `rᵢ` through the store reaches a truthy node whose `$value` is the
bracketed next reference `{rᵢ₊₁}` (so the resolver's `current.$value` branch
fires), and the last node's `$value` is a truthy non-reference literal. -/

/-- One chain link: walking `r` reaches a truthy node whose `$value` is the
string `nxt`. -/
def chainLink (store : JVal) (r : String) (nxt : String) : Bool :=
  match walkTokens store (splitChar '.' r.data) with
  | some node =>
      truthy node &&
      (match jget node "$value" with
       | .str s => s = nxt
       | _ => false)
  | none => false

/-- `chainB store [r₀, …, rₖ₋₁] lit`: the names form a reference chain
through the store ending at the literal `lit` (truthy, not itself a
reference). -/
def chainB (store : JVal) : List String → String → Bool
  | [], _ => false
  | [r], lit => chainLink store r lit && lit != "" && !isBraced lit
  | r :: r' :: rest, lit =>
      chainLink store r (braceStr r') && chainB store (r' :: rest) lit

/-- The value handed to the resolver at recursion depth `i` when it starts
on chain `rs`: the braced references in order, then the final literal. -/
def chainValueAt (rs : List String) (lit : String) (i : Nat) : String :=
  (rs.map braceStr ++ [lit]).getD i ""

theorem braceStr_data (r : String) :
    (braceStr r).data = '{' :: r.data ++ ['}'] := rfl

theorem isBraced_braceStr (r : String) : isBraced (braceStr r) = true := by
  have h : (('{' :: r.data) ++ ['}']).getLast? = some '}' :=
    List.getLast?_concat _
  simp [isBraced, braceStr_data]
  exact h

theorem sliceInner_braceStr (r : String) : sliceInner (braceStr r) = r := by
  show String.mk ((r.data ++ ['}']).dropLast) = r
  rw [List.dropLast_concat]

theorem truthy_str_of_ne (s : String) (h : s ≠ "") :
    truthy (.str s) = true := by
  have hd : s.data ≠ [] := fun hd => h (by cases s; cases hd; rfl)
  simp [truthy, hd]

theorem truthy_braceStr (r : String) : truthy (.str (braceStr r)) = true := by
  simp [truthy, braceStr_data]

theorem isBraced_ne_empty (s : String) (h : isBraced s = true) : s ≠ "" := by
  intro he; subst he; simp [isBraced] at h

/-- Unfolding one resolver step along a chain link whose `$value` is a
truthy string. -/
theorem resolveGo_step (store : JVal) (fuel : Nat) (r s : String)
    (hl : chainLink store r s = true) (hs : s ≠ "") :
    resolveGo store (fuel + 1) (.str (braceStr r)) =
      resolveGo store fuel (.str s) := by
  unfold chainLink at hl
  split at hl
  case h_2 => exact absurd hl (by simp)
  case h_1 node hwalk =>
    rw [Bool.and_eq_true] at hl
    obtain ⟨hnode, hv⟩ := hl
    split at hv
    case h_2 => exact absurd hv (by simp)
    case h_1 s' heq =>
      rw [decide_eq_true_eq] at hv
      rw [hv] at heq
      have hsne : truthy (.str s) = true := truthy_str_of_ne s hs
      simp [resolveGo, isBraced_braceStr, sliceInner_braceStr, hwalk, hnode,
        heq, hsne]

theorem braceStr_ne_empty (r : String) : braceStr r ≠ "" := by
  intro h
  have hd : (braceStr r).data = [] := by rw [h]
  rw [braceStr_data] at hd
  simp at hd

/-- A chain of `k` references resolves to its final literal, with no
diagnostics, whenever the fuel exceeds `k` (i.e. the starting depth plus
the chain length stays within the ceiling). -/
theorem resolveGo_chain_le (store : JVal) :
    ∀ (rs : List String) (lit : String) (fuel : Nat),
      chainB store rs lit = true → rs.length < fuel →
      resolveGo store fuel (.str (braceStr (rs.headD ""))) = (.str lit, [])
  | [], _, _, hc, _ => by simp [chainB] at hc
  | [r], lit, fuel, hc, hlen => by
      simp only [chainB, Bool.and_eq_true, bne_iff_ne, ne_eq,
        Bool.not_eq_true'] at hc
      obtain ⟨⟨hl, hne⟩, hnb⟩ := hc
      obtain ⟨f, rfl⟩ : ∃ f, fuel = f + 1 := ⟨fuel - 1, by omega⟩
      rw [List.headD_cons, resolveGo_step store f r lit hl hne]
      have hf : 0 < f := by simpa using hlen
      obtain ⟨f', rfl⟩ : ∃ f', f = f' + 1 := ⟨f - 1, by omega⟩
      simp [resolveGo, hnb]
  | r :: r' :: rest, lit, fuel, hc, hlen => by
      simp only [chainB, Bool.and_eq_true] at hc
      obtain ⟨hl, hcrest⟩ := hc
      obtain ⟨f, rfl⟩ : ∃ f, fuel = f + 1 := ⟨fuel - 1, by omega⟩
      rw [List.headD_cons,
        resolveGo_step store f r (braceStr r') hl (braceStr_ne_empty r')]
      have hlen' : (r' :: rest).length < f := by simp at hlen ⊢; omega
      have ih := resolveGo_chain_le store (r' :: rest) lit f hcrest hlen'
      rw [List.headD_cons] at ih
      exact ih

/-- When the fuel runs out inside a chain (starting depth plus chain length
exceeds the ceiling), the resolver returns the chain value reached at the
point of exhaustion, with exactly one depth-exceeded diagnostic. -/
theorem resolveGo_chain_over (store : JVal) :
    ∀ (rs : List String) (lit : String) (fuel : Nat),
      chainB store rs lit = true → fuel ≤ rs.length →
      resolveGo store fuel (.str (chainValueAt rs lit 0)) =
        (.str (chainValueAt rs lit fuel),
         [.depthExceeded (.str (chainValueAt rs lit fuel))])
  | [], _, _, hc, _ => by simp [chainB] at hc
  | rs, lit, 0, _, _ => by simp [resolveGo]
  | [r], lit, fuel + 1, hc, hlen => by
      simp only [chainB, Bool.and_eq_true, bne_iff_ne, ne_eq,
        Bool.not_eq_true'] at hc
      obtain ⟨⟨hl, hne⟩, _⟩ := hc
      have hf : fuel = 0 := by simp at hlen; omega
      subst hf
      have h0 : chainValueAt [r] lit 0 = braceStr r := by
        simp [chainValueAt]
      have h1 : chainValueAt [r] lit 1 = lit := by simp [chainValueAt]
      rw [h0, h1, resolveGo_step store 0 r lit hl hne]
      simp [resolveGo]
  | r :: r' :: rest, lit, fuel + 1, hc, hlen => by
      simp only [chainB, Bool.and_eq_true] at hc
      obtain ⟨hl, hcrest⟩ := hc
      have h0 : chainValueAt (r :: r' :: rest) lit 0 = braceStr r := by
        simp [chainValueAt]
      have hshift :
          chainValueAt (r :: r' :: rest) lit (fuel + 1) =
            chainValueAt (r' :: rest) lit fuel := by
        simp [chainValueAt]
      have hlen' : fuel ≤ (r' :: rest).length := by simp at hlen ⊢; omega
      have ih := resolveGo_chain_over store (r' :: rest) lit fuel hcrest hlen'
      have h0' : chainValueAt (r' :: rest) lit 0 = braceStr r' := by
        simp [chainValueAt]
      rw [h0, hshift,
        resolveGo_step store fuel r (braceStr r') hl (braceStr_ne_empty r')]
      rw [h0'] at ih
      exact ih

/-! ## Claim C1 -/

/-- An 11-link reference chain `c1 → c2 → … → c11 → "LIT"`. -/
def c1ChainStore : JVal :=
  .obj [("c1", .obj [("$value", .str "{c2}")]),
        ("c2", .obj [("$value", .str "{c3}")]),
        ("c3", .obj [("$value", .str "{c4}")]),
        ("c4", .obj [("$value", .str "{c5}")]),
        ("c5", .obj [("$value", .str "{c6}")]),
        ("c6", .obj [("$value", .str "{c7}")]),
        ("c7", .obj [("$value", .str "{c8}")]),
        ("c8", .obj [("$value", .str "{c9}")]),
        ("c9", .obj [("$value", .str "{c10}")]),
        ("c10", .obj [("$value", .str "{c11}")]),
        ("c11", .obj [("$value", .str "LIT")])]

/-- The names of the 11-link chain in `c1ChainStore`. -/
def c1Names : List String :=
  ["c1", "c2", "c3", "c4", "c5", "c6", "c7", "c8", "c9", "c10", "c11"]

/-- C1, counterexample: on the 11-link chain (length > 10) the resolver
does emit exactly one depth-exceeded diagnostic, but it returns the final
literal `"LIT"` reached at depth 11 — not the original reference string
`"{c1}"` verbatim, as the claim asserts. -/
theorem C1_counterexample :
    resolveColorReference (.str "{c1}") c1ChainStore 0 =
      (.str "LIT", [.depthExceeded (.str "LIT")]) ∧
    JVal.str "LIT" ≠ JVal.str "{c1}" := by
  refine ⟨rfl, ?_⟩
  intro h
  injection h with h'
  exact absurd h' (by decide)

/-- C1 (amended): for every reference chain of length ≤ 10 the resolver
terminates with the literal at the end of the chain and no diagnostics; for
every chain of length > 10 it emits exactly one depth-exceeded diagnostic
and returns the chain value reached at depth 11 (the final literal when the
chain has exactly 11 references, an intermediate reference string for longer
chains) — not the string it was first called with. -/
theorem C1_resolve_depth_amended (store : JVal) (rs : List String)
    (lit : String) (hc : chainB store rs lit = true) :
    (rs.length ≤ 10 →
      resolveColorReference (.str (braceStr (rs.headD ""))) store 0 =
        (.str lit, [])) ∧
    (10 < rs.length →
      resolveColorReference (.str (braceStr (rs.headD ""))) store 0 =
        (.str (chainValueAt rs lit 11),
         [.depthExceeded (.str (chainValueAt rs lit 11))])) := by
  constructor
  · intro hlen
    exact resolveGo_chain_le store rs lit 11 hc (by omega)
  · intro hlen
    have h := resolveGo_chain_over store rs lit 11 hc (by omega)
    cases rs with
    | nil => simp [chainB] at hc
    | cons r rest =>
        have h0 : chainValueAt (r :: rest) lit 0 = braceStr r := by
          simp [chainValueAt]
        rw [h0] at h
        rw [List.headD_cons]
        exact h

/-- C1 witness: the amended theorem applied to the concrete 11-link chain
(length 11 > 10): one depth-exceeded diagnostic, result `"LIT"`. -/
theorem C1_resolve_depth_amended_witness :
    chainB c1ChainStore c1Names "LIT" = true ∧
    resolveColorReference (.str (braceStr "c1")) c1ChainStore 0 =
      (.str "LIT", [.depthExceeded (.str "LIT")]) := by
  refine ⟨by decide, ?_⟩
  have h :=
    (C1_resolve_depth_amended c1ChainStore c1Names "LIT" (by decide)).2
      (by decide)
  exact h

/-! ## Claim C8 -/

/-- A value of the bracketed reference form `{…}` (a string whose first
character is `{` and whose last character is `}`). -/
def isRefVal : JVal → Bool
  | .str s => isBraced s
  | _ => false

/-- C8: the resolver is the identity on every value that is not a bracketed
reference string — the returned value is the input itself at every depth,
and below the depth ceiling no diagnostic is emitted either; consequently
the flattener's materialization of a `color` leaf whose value is a literal
string returns that literal unchanged. -/
theorem C8_resolve_identity_on_literals :
    (∀ (v store : JVal) (depth : Nat), isRefVal v = false →
      (resolveColorReference v store depth).1 = v) ∧
    (∀ (v store : JVal) (depth : Nat), isRefVal v = false → depth ≤ 10 →
      resolveColorReference v store depth = (v, [])) ∧
    (∀ (s : String) (store : JVal), isBraced s = false →
      materializeLeaf store (.str "color") (.str s) = .str s) := by
  have key : ∀ (v store : JVal) (fuel : Nat), isRefVal v = false →
      resolveGo store (fuel + 1) v = (v, []) := by
    intro v store fuel hv
    cases v with
    | str s =>
        simp only [isRefVal] at hv
        simp [resolveGo, hv]
    | num n => simp [resolveGo]
    | bool b => simp [resolveGo]
    | null => simp [resolveGo]
    | undef => simp [resolveGo]
    | arr xs => simp [resolveGo]
    | obj fs => simp [resolveGo]
  refine ⟨?_, ?_, ?_⟩
  · intro v store depth hv
    unfold resolveColorReference
    cases h11 : 11 - depth with
    | zero => simp [resolveGo]
    | succ f => rw [key v store f hv]
  · intro v store depth hv hd
    unfold resolveColorReference
    have h11 : 11 - depth = (10 - depth) + 1 := by omega
    rw [h11, key v store (10 - depth) hv]
  · intro s store hs
    have h := key (.str s) store 10 (by simp [isRefVal, hs])
    simp only [materializeLeaf, if_pos rfl]
    unfold resolveColorReference
    rw [show 11 - 0 = 10 + 1 from rfl, h]
    simp

/-- C8 witness: identity at concrete non-reference inputs. -/
theorem C8_resolve_identity_on_literals_witness :
    (resolveColorReference (.num 7) (.obj []) 12).1 = .num 7 ∧
    resolveColorReference (.str "#fff") (.obj []) 0 = (.str "#fff", []) ∧
    materializeLeaf (.obj []) (.str "color") (.str "#fff") = .str "#fff" :=
  ⟨C8_resolve_identity_on_literals.1 (.num 7) (.obj []) 12 (by decide),
   C8_resolve_identity_on_literals.2.1 (.str "#fff") (.obj []) 0 (by decide)
     (by decide),
   C8_resolve_identity_on_literals.2.2 "#fff" (.obj []) (by decide)⟩

/-! ## Claim C10 -/

/-- C10: the flattener's leaf test is `value.$type && value.$value`
(truthiness, not presence).  An object node carrying a `$value` field whose
value is falsy (empty string, `0`, `false`) is not treated as a leaf: it is
recursed into as a nested namespace (so no entry is emitted under its own
key by the node itself). -/
theorem C10_falsy_value_not_leaf (store : JVal) (fuel : Nat) (k pre : String)
    (fs : List (String × JVal)) (rest result : List (String × JVal))
    (v : JVal) (hv : lookupField fs "$value" = some v)
    (hfv : truthy v = false) :
    flattenGo store (fuel + 1) ((k, .obj fs) :: rest) pre result =
      (do
        let r ← flattenGo store fuel fs (newKeyOf pre k) result
        flattenGo store fuel rest pre r) := by
  have hjv : jget (.obj fs) "$value" = v := by simp [jget, getProp, hv]
  simp [flattenGo, jsGet, jsEntries, typeofObject, Bind.bind, Except.bind,
    hjv, hfv]

/-- C10 witness: `{$type:"color", $value:""}` is recursed into as a
namespace (emitting nothing, since its fields are primitives), so the
flattening of `{foo:{$type:"color",$value:""}}` has no `"foo"` key. -/
theorem C10_falsy_value_not_leaf_witness :
    flattenGo (.obj []) 4
        [("foo", .obj [("$type", .str "color"), ("$value", .str "")])] "" [] =
      (do
        let r ← flattenGo (.obj []) 3
          [("$type", .str "color"), ("$value", .str "")] (newKeyOf "" "foo") []
        flattenGo (.obj []) 3 [] "" r) ∧
    flattenTokens (.obj [("foo", .obj [("$type", .str "color"),
        ("$value", .str "")])]) "" [] (.obj []) 4 = .ok [] :=
  ⟨C10_falsy_value_not_leaf (.obj []) 3 "foo" ""
      [("$type", .str "color"), ("$value", .str "")] [] [] (.str "")
      rfl rfl,
   rfl⟩

/-! ## Claim C3 -/

/-- C3, counterexample: a namespace entry holding `null` makes the
flattener raise a TypeError (JavaScript `value.$type` on `null`), so the
flattener is not error-free on all inputs. -/
theorem C3_counterexample :
    flattenTokens (.obj [("foo", .null)]) "" [] (.obj []) 5 =
      .error .typeError ∧
    ∀ out, flattenTokens (.obj [("foo", .null)]) "" [] (.obj []) 5 ≠
      .ok out := by
  refine ⟨rfl, fun out h => ?_⟩
  rw [show flattenTokens (.obj [("foo", .null)]) "" [] (.obj []) 5 =
      .error .typeError from rfl] at h
  exact Except.noConfusion h

/-- C3 (amended): every entry whose node is a primitive string, number or
boolean — neither a well-formed leaf nor an object — is silently skipped,
producing no output key and no error; but an entry holding `null` raises a
TypeError (reading `$type` of `null`).  In particular the malformed leaf
`{foo: 42}` flattens without error and emits no key for `foo`. -/
theorem C3_flatten_malformed_amended :
    (∀ (store : JVal) (fuel : Nat) (k pre s : String)
       (rest result : List (String × JVal)),
       flattenGo store (fuel + 1) ((k, .str s) :: rest) pre result =
         flattenGo store fuel rest pre result) ∧
    (∀ (store : JVal) (fuel : Nat) (k pre : String) (n : Int)
       (rest result : List (String × JVal)),
       flattenGo store (fuel + 1) ((k, .num n) :: rest) pre result =
         flattenGo store fuel rest pre result) ∧
    (∀ (store : JVal) (fuel : Nat) (k pre : String) (b : Bool)
       (rest result : List (String × JVal)),
       flattenGo store (fuel + 1) ((k, .bool b) :: rest) pre result =
         flattenGo store fuel rest pre result) ∧
    (∀ (store : JVal) (fuel : Nat) (k pre : String)
       (rest result : List (String × JVal)),
       flattenGo store (fuel + 1) ((k, .null) :: rest) pre result =
         .error .typeError) ∧
    (∀ (store : JVal) (fuel : Nat),
       flattenTokens (.obj [("foo", .num 42)]) "" [] store (fuel + 2) =
         .ok []) := by
  refine ⟨?_, ?_, ?_, ?_, ?_⟩
  · intro store fuel k pre s rest result
    simp [flattenGo, jsGet, jget, getProp, truthy, typeofObject, Bind.bind,
      Except.bind]
  · intro store fuel k pre n rest result
    simp [flattenGo, jsGet, jget, getProp, truthy, typeofObject, Bind.bind,
      Except.bind]
  · intro store fuel k pre b rest result
    simp [flattenGo, jsGet, jget, getProp, truthy, typeofObject, Bind.bind,
      Except.bind]
  · intro store fuel k pre rest result
    simp [flattenGo, jsGet, Bind.bind, Except.bind]
  · intro store fuel
    simp [flattenTokens, jsEntries, flattenGo, jsGet, jget, getProp,
      lookupField, truthy, typeofObject, Bind.bind, Except.bind]

/-! ## Claim C5 -/

/-- Modelled from the spec: claim C5 renders an object element as
`"{offsetX} {offsetY} {blur} {spread} {color}"` with defaults substituted
for *missing* fields only — a present field interpolates its own value,
even when that value is falsy. -/
def shadowFieldSpec (e : JVal) (k dflt : String) : String :=
  match getProp e k with
  | some (.str s) => s
  | some v => jsToString v
  | none => dflt

/-- Modelled from the spec: claim C5's element renderer (string elements
pass through, object elements render the five fields with missing-field
defaults, anything else renders as `"none"`). -/
def shadowElemSpec : JVal → String
  | .str s => s
  | .obj fs =>
      shadowFieldSpec (.obj fs) "offsetX" "0px" ++ " " ++
      shadowFieldSpec (.obj fs) "offsetY" "0px" ++ " " ++
      shadowFieldSpec (.obj fs) "blur" "0px" ++ " " ++
      shadowFieldSpec (.obj fs) "spread" "0px" ++ " " ++
      shadowFieldSpec (.obj fs) "color" "transparent"
  | .arr xs =>
      shadowFieldSpec (.arr xs) "offsetX" "0px" ++ " " ++
      shadowFieldSpec (.arr xs) "offsetY" "0px" ++ " " ++
      shadowFieldSpec (.arr xs) "blur" "0px" ++ " " ++
      shadowFieldSpec (.arr xs) "spread" "0px" ++ " " ++
      shadowFieldSpec (.arr xs) "color" "transparent"
  | _ => "none"

/-- C5, counterexample: the component `{offsetX: ""}` has a *present but
falsy* `offsetX`.  The code's `||`-defaults substitute `"0px"` for it,
yielding `"0px 0px 0px 0px transparent"`, while the claim's render (defaults
only for missing fields) interpolates the empty string, yielding
`" 0px 0px 0px transparent"`. -/
theorem C5_counterexample :
    processShadowValue (.arr [.obj [("offsetX", .str "")]]) =
      .str "0px 0px 0px 0px transparent" ∧
    shadowElemSpec (.obj [("offsetX", .str "")]) =
      " 0px 0px 0px transparent" ∧
    ("0px 0px 0px 0px transparent" : String) ≠
      " 0px 0px 0px transparent" :=
  ⟨rfl, rfl, by decide⟩

/-- `Array.isArray(v)`. -/
def isArrVal : JVal → Bool
  | .arr _ => true
  | _ => false

/-- Modelled from the amended claim: defaults are substituted for fields
that are missing *or falsy* (empty string, `0`, `false`, `null`). -/
def shadowFieldAmended (e : JVal) (k dflt : String) : String :=
  match getProp e k with
  | some v => if truthy v then jsToString v else dflt
  | none => dflt

/-- Modelled from the amended claim: string elements pass through, non-null
`typeof "object"` elements (plain objects and arrays) render the five
fields with missing-or-falsy defaults, anything else renders as `"none"`. -/
def shadowElemAmended : JVal → String
  | .str s => s
  | .obj fs =>
      shadowFieldAmended (.obj fs) "offsetX" "0px" ++ " " ++
      shadowFieldAmended (.obj fs) "offsetY" "0px" ++ " " ++
      shadowFieldAmended (.obj fs) "blur" "0px" ++ " " ++
      shadowFieldAmended (.obj fs) "spread" "0px" ++ " " ++
      shadowFieldAmended (.obj fs) "color" "transparent"
  | .arr xs =>
      shadowFieldAmended (.arr xs) "offsetX" "0px" ++ " " ++
      shadowFieldAmended (.arr xs) "offsetY" "0px" ++ " " ++
      shadowFieldAmended (.arr xs) "blur" "0px" ++ " " ++
      shadowFieldAmended (.arr xs) "spread" "0px" ++ " " ++
      shadowFieldAmended (.arr xs) "color" "transparent"
  | _ => "none"

theorem shadowField_eq_amended (e : JVal) (k dflt : String) :
    shadowField e k dflt = shadowFieldAmended e k dflt := by
  unfold shadowField shadowFieldAmended jget
  cases h : getProp e k <;> simp [truthy]

theorem renderShadowElem_eq_amended (e : JVal) :
    renderShadowElem e = shadowElemAmended e := by
  cases e <;>
    simp [renderShadowElem, shadowElemAmended, typeofObject, isNullish,
      shadowField_eq_amended]

/-- C5 (amended): a non-array shadow value is returned verbatim; an array
renders elementwise — strings pass through, non-null objects (and arrays)
render as `"offsetX offsetY blur spread color"` with `"0px"` substituted
for length fields that are missing *or falsy* and `"transparent"` for a
missing-or-falsy color, anything else renders as `"none"` — joined with
`", "`; in particular `{offsetX:"1px", color:"red"}` materializes to
`"1px 0px 0px 0px red"`. -/
theorem C5_shadow_amended :
    (∀ v : JVal, isArrVal v = false → processShadowValue v = v) ∧
    (∀ xs : List JVal,
      processShadowValue (.arr xs) =
        .str (String.intercalate ", " (xs.map shadowElemAmended))) ∧
    processShadowValue
        (.arr [.obj [("offsetX", .str "1px"), ("color", .str "red")]]) =
      .str "1px 0px 0px 0px red" := by
  refine ⟨?_, ?_, ?_⟩
  · intro v hv
    cases v <;> first
      | rfl
      | simp [isArrVal] at hv
  · intro xs
    have hfe : renderShadowElem = shadowElemAmended :=
      funext renderShadowElem_eq_amended
    simp [processShadowValue, hfe]
  · simp [processShadowValue, renderShadowElem, shadowField, jget, getProp,
      lookupField, typeofObject, isNullish, truthy, jsToString_str,
      jsToString_undef]
    decide

/-- C5 witness: the amended theorem applied at concrete inputs. -/
theorem C5_shadow_amended_witness :
    processShadowValue (.str "5px 5px red") = .str "5px 5px red" ∧
    processShadowValue (.arr [.str "a", .null]) =
      .str (String.intercalate ", "
        ([JVal.str "a", JVal.null].map shadowElemAmended)) :=
  ⟨C5_shadow_amended.1 (.str "5px 5px red") rfl,
   C5_shadow_amended.2.1 [.str "a", .null]⟩

/-! ## Claim C9 -/

/-- State-passing rendition of `resolveColorReference`, with the token
store as the thread-through state.  The source body only ever *reads* the
store (`allTokens` and nodes reached from it feed lookups; every assignment
targets a local), so the translation is a state read followed by the pure
computation. -/
def resolveColorReferenceST (value : JVal) (depth : Nat) :
    StateM JVal (JVal × List Diag) := do
  let store ← get
  pure (resolveColorReference value store depth)

/-- State-passing rendition of `processShadowValue` (it never touches the
store at all). -/
def processShadowValueST (value : JVal) : StateM JVal JVal :=
  pure (processShadowValue value)

/-- State-passing rendition of `flattenTokens`: the store is only read
(leaf resolution); the single write target of the body, `result[newKey]`,
is the separate accumulator, never the store. -/
def flattenTokensST (tokens : JVal) (pref : String)
    (result : List (String × JVal)) (fuel : Nat) :
    StateM JVal (Except JsErr (List (String × JVal))) := do
  let store ← get
  pure (flattenTokens tokens pref result store fuel)

/-- State-passing rendition of `resolveCSSReferences`: the store is only
read during walks; the output is a fresh string. -/
def resolveCSSReferencesST (fuel : Nat) (css : String) :
    StateM JVal (Option String) := do
  let store ← get
  pure (resolveCSSReferences fuel css store)

/-- C9: the token store is read-only across all four engine operations —
running any of them in the store-state monad leaves the state exactly as it
was. -/
theorem C9_store_read_only (store value tokens : JVal) (depth fuel : Nat)
    (css : String) (pref : String) (result : List (String × JVal)) :
    ((resolveColorReferenceST value depth).run store).2 = store ∧
    ((processShadowValueST value).run store).2 = store ∧
    ((flattenTokensST tokens pref result fuel).run store).2 = store ∧
    ((resolveCSSReferencesST fuel css).run store).2 = store :=
  ⟨rfl, rfl, rfl, rfl⟩

/-! ## Claim C6 -/

/-- The flattener's depth-first emission sequence: the same traversal and
branch tests as `flattenGo`, but recording the emitted `(key, value)` pairs
in traversal order (duplicate keys kept).  This is the formal reading of
"the keys of a depth-first traversal of the namespace in insertion
order". -/
def emitGo (allTokens : JVal) :
    Nat → List (String × JVal) → String →
    Except JsErr (List (String × JVal))
  | 0, _, _ => .error .noFuel
  | _+1, [], _ => .ok []
  | fuel+1, (key, value) :: rest, pref => do
      let newKey := newKeyOf pref key
      let t ← jsGet value "$type"
      if truthy t then
        let v ← jsGet value "$value"
        if truthy v then
          let tail ← emitGo allTokens fuel rest pref
          .ok ((newKey, materializeLeaf allTokens t v) :: tail)
        else
          if typeofObject value then do
            let inner ← emitGo allTokens fuel (jsEntries value) newKey
            let tail ← emitGo allTokens fuel rest pref
            .ok (inner ++ tail)
          else emitGo allTokens fuel rest pref
      else
        if typeofObject value then do
          let inner ← emitGo allTokens fuel (jsEntries value) newKey
          let tail ← emitGo allTokens fuel rest pref
          .ok (inner ++ tail)
        else emitGo allTokens fuel rest pref

/-- Folding one emitted pair into the accumulator object. -/
def updStep (acc : List (String × JVal)) (p : String × JVal) :
    List (String × JVal) :=
  updateKey acc p.1 p.2

/-- The flattener is the fold of JavaScript-object assignment over its own
depth-first emission sequence. -/
theorem flattenGo_eq_emitGo (store : JVal) :
    ∀ (fuel : Nat) (entries : List (String × JVal)) (pref : String)
      (result : List (String × JVal)),
      flattenGo store fuel entries pref result =
        (emitGo store fuel entries pref).map fun E => E.foldl updStep result
  | 0, entries, pref, result => by simp [flattenGo, emitGo, Except.map]
  | fuel+1, [], pref, result => by simp [flattenGo, emitGo, Except.map]
  | fuel+1, (key, value) :: rest, pref, result => by
      simp only [flattenGo, emitGo, Bind.bind, Except.bind]
      cases ht : jsGet value "$type" with
      | error e => rfl
      | ok t =>
          by_cases htt : truthy t = true
          · simp only [htt, if_true]
            cases hv : jsGet value "$value" with
            | error e => rfl
            | ok v =>
                by_cases hvt : truthy v = true
                · simp only [hvt, if_true]
                  rw [flattenGo_eq_emitGo store fuel rest pref
                    (updateKey result (newKeyOf pref key)
                      (materializeLeaf store t v))]
                  cases he : emitGo store fuel rest pref with
                  | error e => rfl
                  | ok E => simp [Except.map, updStep]
                · simp only [hvt, if_false, Bool.false_eq_true]
                  by_cases hob : typeofObject value = true
                  · simp only [hob, if_true]
                    rw [flattenGo_eq_emitGo store fuel (jsEntries value)
                      (newKeyOf pref key) result]
                    cases hei : emitGo store fuel (jsEntries value)
                        (newKeyOf pref key) with
                    | error e => rfl
                    | ok Ei =>
                        simp only [Except.map]
                        rw [flattenGo_eq_emitGo store fuel rest pref
                          (Ei.foldl updStep result)]
                        cases her : emitGo store fuel rest pref with
                        | error e => rfl
                        | ok Et => simp [Except.map, List.foldl_append]
                  · simp only [hob, if_false, Bool.false_eq_true]
                    exact flattenGo_eq_emitGo store fuel rest pref result
          · simp only [htt, if_false, Bool.false_eq_true]
            by_cases hob : typeofObject value = true
            · simp only [hob, if_true]
              rw [flattenGo_eq_emitGo store fuel (jsEntries value)
                (newKeyOf pref key) result]
              cases hei : emitGo store fuel (jsEntries value)
                  (newKeyOf pref key) with
              | error e => rfl
              | ok Ei =>
                  simp only [Except.map]
                  rw [flattenGo_eq_emitGo store fuel rest pref
                    (Ei.foldl updStep result)]
                  cases her : emitGo store fuel rest pref with
                  | error e => rfl
                  | ok Et => simp [Except.map, List.foldl_append]
            · simp only [hob, if_false, Bool.false_eq_true]
              exact flattenGo_eq_emitGo store fuel rest pref result

/-- Assigning a non-integer-like key into a JavaScript object either keeps
the key sequence unchanged (existing key) or appends the new key (fresh
key).  (A fresh integer-like key would instead enter the ascending-integer
prefix.) -/
theorem updateKey_keys (r : List (String × JVal)) (k : String) (v : JVal)
    (hk : isArrayIndexKey k = false) :
    (updateKey r k v).map Prod.fst = r.map Prod.fst ∨
    (updateKey r k v).map Prod.fst = r.map Prod.fst ++ [k] := by
  unfold updateKey
  split
  · left
    rw [List.map_map]
    apply List.map_congr_left
    intro p _
    by_cases h : p.1 = k <;> simp [h]
  · right
    rw [if_neg (by simp [hk])]
    simp

/-- Folding assignments of non-integer-like keys into an accumulator keeps
the key order a sublist of "accumulator keys, then emitted keys in
order". -/
theorem keys_foldl_updStep :
    ∀ (E r : List (String × JVal)),
      (∀ p ∈ E, isArrayIndexKey p.1 = false) →
      List.Sublist ((E.foldl updStep r).map Prod.fst)
        (r.map Prod.fst ++ E.map Prod.fst)
  | [], r, _ => by simp
  | (k, v) :: E', r, hni => by
      have ih := keys_foldl_updStep E' (updateKey r k v)
        fun p hp => hni p (by simp [hp])
      simp only [List.foldl_cons, List.map_cons]
      rcases updateKey_keys r k v (hni (k, v) (by simp)) with h | h
      · rw [h] at ih
        refine ih.trans ?_
        exact (List.sublist_cons_self k (E'.map Prod.fst)).append_left _
      · rw [h] at ih
        simpa [List.append_assoc] using ih

/-- When the emitted keys are non-integer-like, fresh and pairwise
distinct, folding the assignments appends the pairs verbatim. -/
theorem foldl_updStep_fresh :
    ∀ (E r : List (String × JVal)),
      (∀ p ∈ E, isArrayIndexKey p.1 = false) →
      (E.map Prod.fst).Nodup →
      (∀ k, k ∈ E.map Prod.fst → k ∉ r.map Prod.fst) →
      E.foldl updStep r = r ++ E
  | [], r, _, _, _ => by simp
  | (k, v) :: E', r, hni, hnd, hdisj => by
      have hk : k ∉ r.map Prod.fst := hdisj k (by simp)
      have hupd : updateKey r k v = r ++ [(k, v)] := by
        unfold updateKey
        rw [if_neg, if_neg (by simp [hni (k, v) (by simp)])]
        intro hany
        rw [List.any_eq_true] at hany
        obtain ⟨p, hp, hpk⟩ := hany
        rw [decide_eq_true_eq] at hpk
        exact hk (List.mem_map.mpr ⟨p, hp, hpk⟩)
      have hnd' := hnd
      simp only [List.map_cons, List.nodup_cons] at hnd'
      have ih := foldl_updStep_fresh E' (r ++ [(k, v)])
        (fun p hp => hni p (by simp [hp])) hnd'.2 ?_
      · simp only [List.foldl_cons, updStep, hupd]
        rw [ih, List.append_assoc]
        rfl
      · intro k' hk'
        simp only [List.map_append, List.mem_append, List.map_cons,
          List.map_nil, List.mem_singleton]
        rintro (hr | hkk)
        · exact hdisj k' (by simp [hk']) hr
        · exact hnd'.1 (hkk ▸ hk')

/-- The namespace of C6's counterexample: top-level keys `"1"` and `"2"`
(canonical array indices, listed in their enumeration order), a nested
namespace under `"1"`. -/
def c6Tokens : JVal :=
  .obj [("1", .obj [("x", .obj [("$type", .str "t"), ("$value", .num 1)])]),
        ("2", .obj [("$type", .str "t"), ("$value", .num 2)])]

/-- C6, counterexample: the depth-first traversal of `c6Tokens` emits
`"1-x"` before `"2"`, but the flattened result object enumerates `"2"`
first — `"2"` is an array-index key and `"1-x"` is not, so ECMAScript
own-property order lists it before the earlier-assigned `"1-x"`.  The
output keys `["2", "1-x"]` are not in the depth-first relative order
`["1-x", "2"]`, refuting order preservation for every input namespace. -/
theorem C6_counterexample :
    emitGo (.obj []) 5 (jsEntries c6Tokens) "" =
      .ok [("1-x", .num 1), ("2", .num 2)] ∧
    flattenTokens c6Tokens "" [] (.obj []) 5 =
      .ok [("2", .num 2), ("1-x", .num 1)] ∧
    ¬ List.Sublist (["2", "1-x"] : List String) ["1-x", "2"] := by
  refine ⟨rfl, rfl, fun h => ?_⟩
  exact absurd (h.eq_of_length rfl) (by decide)

/-- C6 (amended): flattening is order-preserving for non-integer-like
keys.  Whenever the flattener succeeds from an empty accumulator and the
depth-first emission sequence (`emitGo`) contains no canonical array-index
key, the output keys form a sublist of the emission key sequence —
dropping only later duplicates — so they appear in depth-first insertion
order, and when the emitted keys are pairwise distinct the output is
exactly the emission sequence.  (Emitted array-index keys instead
enumerate first, in ascending numeric order, per ECMAScript own-property
order.) -/
theorem C6_flatten_order_amended (store tokens : JVal) (pref : String)
    (fuel : Nat) (out E : List (String × JVal))
    (h : flattenTokens tokens pref [] store fuel = .ok out)
    (hE : emitGo store fuel (jsEntries tokens) pref = .ok E)
    (hni : ∀ p ∈ E, isArrayIndexKey p.1 = false) :
    List.Sublist (out.map Prod.fst) (E.map Prod.fst) ∧
    ((E.map Prod.fst).Nodup → out = E) := by
  unfold flattenTokens at h
  rw [flattenGo_eq_emitGo store fuel (jsEntries tokens) pref [], hE] at h
  simp only [Except.map] at h
  have hout : E.foldl updStep [] = out := Except.ok.inj h
  constructor
  · rw [← hout]
    simpa using keys_foldl_updStep E [] hni
  · intro hnd
    rw [← hout, foldl_updStep_fresh E [] hni hnd (by simp)]
    simp

/-- C6 witness: a three-key namespace `[a, b, c]` (with a nested namespace
under `b`, no integer-like keys) flattens to keys in depth-first insertion
order. -/
theorem C6_flatten_order_amended_witness :
    List.Sublist
      (([("a", JVal.num 1), ("b-bb", JVal.num 2),
         ("c", JVal.num 3)].map Prod.fst))
      (([("a", JVal.num 1), ("b-bb", JVal.num 2),
         ("c", JVal.num 3)].map Prod.fst)) ∧
    (([("a", JVal.num 1), ("b-bb", JVal.num 2),
       ("c", JVal.num 3)].map Prod.fst).Nodup →
      [("a", JVal.num 1), ("b-bb", JVal.num 2), ("c", JVal.num 3)] =
        [("a", JVal.num 1), ("b-bb", JVal.num 2), ("c", JVal.num 3)]) :=
  C6_flatten_order_amended (.obj [])
    (.obj [("a", .obj [("$type", .str "num"), ("$value", .num 1)]),
           ("b", .obj [("bb", .obj [("$type", .str "num"),
              ("$value", .num 2)])]),
           ("c", .obj [("$type", .str "num"), ("$value", .num 3)])])
    "" 5 [("a", .num 1), ("b-bb", .num 2), ("c", .num 3)]
    [("a", .num 1), ("b-bb", .num 2), ("c", .num 3)] rfl rfl (by decide)

/-! ## Scanner lemmas for the Text-Reference Rewriter -/

theorem takeWhile_dropWhile_all_append (inner : List Char) (x : Char)
    (post : List Char) (h : ∀ c ∈ inner, nonBrace c = true)
    (hx : nonBrace x = false) :
    (inner ++ x :: post).takeWhile nonBrace = inner ∧
    (inner ++ x :: post).dropWhile nonBrace = x :: post := by
  induction inner with
  | nil => simp [List.takeWhile_cons, List.dropWhile_cons, hx]
  | cons c cs ih =>
      have hc : nonBrace c = true := h c (by simp)
      have ih' := ih fun d hd => h d (by simp [hd])
      simp [List.takeWhile_cons, List.dropWhile_cons, hc, ih'.1, ih'.2]

/-- The leftmost `\{([^{}]+)\}` match in `pre ++ "{inner}" ++ post` is the
displayed occurrence, whenever `pre` contains no `{` and `inner` is a
nonempty brace-free capture. -/
theorem findMatch_at :
    ∀ (pre inner post : List Char),
      '{' ∉ pre → inner ≠ [] → (∀ c ∈ inner, nonBrace c = true) →
      findMatch (pre ++ '{' :: inner ++ '}' :: post) =
        some (pre, inner, post)
  | [], inner, post, _, hne, hib => by
      have ht := takeWhile_dropWhile_all_append inner '}' post hib rfl
      simp only [List.nil_append, findMatch, List.append_eq, if_pos rfl]
      rw [ht.1, ht.2]
      simp [hne]
  | c :: pre', inner, post, hpre, hne, hib => by
      have hc : ¬(c = '{') := fun h => hpre (by simp [h])
      have ih := findMatch_at pre' inner post
        (fun h => hpre (by simp [h])) hne hib
      simp only [List.cons_append, findMatch, List.append_eq]
      rw [if_neg hc, ih]
      rfl

/-- Rewriting a text around a single reference occurrence: the prefix (no
`{`) passes through, the capture goes through the callback, and scanning
continues on the suffix. -/
theorem rcRun_text_replace (store : JVal) (pre inner post rep out : List Char)
    (f : Nat) (hpre : '{' ∉ pre) (hinner : inner ≠ [])
    (hib : ∀ c ∈ inner, nonBrace c = true)
    (hcb : rcRun store f (.callb inner) = some rep)
    (hpost : rcRun store f (.text post) = some out) :
    rcRun store (f + 1) (.text (pre ++ '{' :: inner ++ '}' :: post)) =
      some (pre ++ rep ++ out) := by
  have hm := findMatch_at pre inner post hpre hinner hib
  simp only [rcRun, List.append_eq]
  rw [hm]
  simp [hcb, hpost, Bind.bind, Option.bind]

/-! ## Claim C4 -/

/-- The token store of claim C4: `{foo:{bar:{$type:"color",$value:"#fff"}}}`
(the spec's abstract `type`/`value` fields are the source's `$type`/`$value`). -/
def dashStore : JVal :=
  .obj [("foo", .obj [("bar",
    .obj [("$type", .str "color"), ("$value", .str "#fff")])])]

/-- C4: in any text `pre ++ "{foo-bar}" ++ post` (prefix without `{`), the
rewriter replaces the occurrence `{foo-bar}` with `#fff` against
`dashStore`: the missing segment `foo-bar` is retried as the pair
`foo`,`bar` by the dash fallback. -/
theorem C4_dash_fallback (pre post out : List Char) (f : Nat)
    (hpre : '{' ∉ pre) (hf : 1 ≤ f)
    (hpost : rcRun dashStore f (.text post) = some out) :
    rcRun dashStore (f + 1)
        (.text (pre ++ '{' :: "foo-bar".data ++ '}' :: post)) =
      some (pre ++ "#fff".data ++ out) := by
  apply rcRun_text_replace dashStore pre _ post _ out f hpre (by decide)
    (by decide) ?_ hpost
  obtain ⟨f', rfl⟩ : ∃ f', f = f' + 1 := ⟨f - 1, by omega⟩
  rfl

/-- C4 witness: `"x: {foo-bar}"` rewrites to `"x: #fff"`. -/
theorem C4_dash_fallback_witness :
    rcRun dashStore 2 (.text ("x: ".data ++ '{' :: "foo-bar".data ++
        '}' :: [])) = some ("x: ".data ++ "#fff".data ++ []) ∧
    resolveCSSReferences 2 "x: {foo-bar}" dashStore = some "x: #fff" :=
  ⟨C4_dash_fallback "x: ".data [] [] 1 (by decide) (by decide) rfl, rfl⟩

/-! ## Claim C2 -/

/-- C2, counterexample: with an empty store, the occurrence `{--x}` is NOT
rewritten to `var(--x)` — the dotted-path walk fails first (the dash
fallback splits `--x` into two empty segments) and the early
`return match` keeps the text unchanged. -/
theorem C2_counterexample :
    resolveCSSReferences 5 "\x7b--x\x7d" (.obj []) = some "\x7b--x\x7d" ∧
    (some "\x7b--x\x7d" : Option String) ≠ some "var(--x)" :=
  ⟨rfl, by decide⟩

/-- C2 (amended): a `--`-prefixed reference is rewritten to `var(--name)`
only when the store walk *succeeds* — it reaches a truthy node that has no
`$value` field; then the occurrence becomes `var(--name)`.  (When the walk
fails, the occurrence is left unchanged; a found `$value` wins over the
`--` rule.) -/
theorem C2_var_rewrite_amended (store node : JVal) (ref : String)
    (pre post out : List Char) (f : Nat)
    (hpre : '{' ∉ pre) (href : ref.data ≠ [])
    (hrb : ∀ c ∈ ref.data, nonBrace c = true)
    (hwalk : walkCSS store (splitChar '.' ref.data) = some node)
    (hnode : truthy node = true)
    (hnoval : getProp node "$value" = none)
    (hdash : List.isPrefixOf ['-', '-'] ref.data = true)
    (hf : 1 ≤ f)
    (hpost : rcRun store f (.text post) = some out) :
    rcRun store (f + 1) (.text (pre ++ '{' :: ref.data ++ '}' :: post)) =
      some (pre ++ ("var(" ++ ref ++ ")").data ++ out) := by
  apply rcRun_text_replace store pre _ post _ out f hpre href hrb ?_ hpost
  obtain ⟨f', rfl⟩ : ∃ f', f = f' + 1 := ⟨f - 1, by omega⟩
  simp [rcRun, hwalk, hnode, definedProp, jget, hnoval, hdash]

/-- C2 witness: with `--x` present in the store as a plain (non-leaf)
node, `{--x}` does become `var(--x)`. -/
theorem C2_var_rewrite_amended_witness :
    rcRun (.obj [("--x", .obj [("k", .num 1)])]) 2
        (.text ([] ++ '{' :: "--x".data ++ '}' :: [])) =
      some ([] ++ ("var(" ++ "--x" ++ ")").data ++ []) ∧
    resolveCSSReferences 2 "\x7b--x\x7d" (.obj [("--x", .obj [("k", .num 1)])]) =
      some "var(--x)" :=
  ⟨C2_var_rewrite_amended (.obj [("--x", .obj [("k", .num 1)])])
      (.obj [("k", .num 1)]) "--x" [] [] [] 1
      (by decide) (by decide) (by decide) rfl rfl rfl (by decide)
      (by decide) rfl,
   rfl⟩

/-! ## Claim C7 -/

theorem walkTokens_imp_walkCSS :
    ∀ (parts : List (List Char)) (v r : JVal),
      walkTokens v parts = some r → walkCSS v parts = some r
  | [], v, r, h => h
  | part :: rest, v, r, h => by
      unfold walkTokens at h
      split at h
      · rename_i hcond
        unfold walkCSS
        rw [if_pos hcond]
        exact walkTokens_imp_walkCSS rest _ r h
      · exact Option.noConfusion h

/-- Reference names usable in rewriter text: nonempty and brace-free, so
that `{name}` is a regex match. -/
def chainInnersOK (rs : List String) : Bool :=
  rs.all fun r => !r.data.isEmpty && r.data.all nonBrace

theorem chainLink_elim (store : JVal) (r s : String)
    (hl : chainLink store r s = true) :
    ∃ node, walkTokens store (splitChar '.' r.data) = some node ∧
      truthy node = true ∧ jget node "$value" = .str s := by
  unfold chainLink at hl
  split at hl
  case h_2 => exact absurd hl (by simp)
  case h_1 node hwalk =>
    rw [Bool.and_eq_true] at hl
    obtain ⟨hnode, hv⟩ := hl
    split at hv
    case h_2 => exact absurd hv (by simp)
    case h_1 s' heq =>
      rw [decide_eq_true_eq] at hv
      exact ⟨node, hwalk, hnode, hv ▸ heq⟩

/-- The rewriter fully resolves a reference chain of any length `k` once
the fuel reaches `2k + 1`: each hop spends one text scan and one callback,
and no depth ceiling intervenes. -/
theorem rcRun_chain (store : JVal) :
    ∀ (rs : List String) (lit : String) (f : Nat),
      chainB store rs lit = true → chainInnersOK rs = true →
      2 * rs.length + 1 ≤ f →
      rcRun store f (.text (braceStr (rs.headD "")).data) = some lit.data
  | [], _, _, hc, _, _ => by simp [chainB] at hc
  | [r], lit, f, hc, hok, hf => by
      simp only [chainB, Bool.and_eq_true, bne_iff_ne, ne_eq,
        Bool.not_eq_true'] at hc
      obtain ⟨⟨hl, _⟩, hnb⟩ := hc
      obtain ⟨node, hwalk, hnode, hval⟩ := chainLink_elim store r lit hl
      have hwc := walkTokens_imp_walkCSS _ _ _ hwalk
      have hokr : (!r.data.isEmpty && r.data.all nonBrace) = true := by
        simp only [chainInnersOK, List.all_cons, List.all_nil,
          Bool.and_true] at hok
        exact hok
      rw [Bool.and_eq_true] at hokr
      obtain ⟨f1, rfl⟩ : ∃ f1, f = f1 + 1 := ⟨f - 1, by omega⟩
      rw [List.headD_cons, braceStr_data]
      have hcb : rcRun store f1 (.callb r.data) = some lit.data := by
        obtain ⟨f2, rfl⟩ : ∃ f2, f1 = f2 + 1 := ⟨f1 - 1, by simp at hf; omega⟩
        simp [rcRun, hwc, hnode, definedProp, hval, hnb]
      have hpost : rcRun store f1 (.text []) = some [] := by
        obtain ⟨f2, rfl⟩ : ∃ f2, f1 = f2 + 1 := ⟨f1 - 1, by simp at hf; omega⟩
        rfl
      have := rcRun_text_replace store [] r.data [] lit.data [] f1
        (by simp) ?_ ?_ hcb hpost
      · simpa using this
      · intro he
        have h1 := hokr.1
        rw [he] at h1
        simp at h1
      · intro c hcm
        have h2 := hokr.2
        rw [List.all_eq_true] at h2
        exact h2 c hcm
  | r :: r' :: rest, lit, f, hc, hok, hf => by
      simp only [chainB, Bool.and_eq_true] at hc
      obtain ⟨hl, hcrest⟩ := hc
      obtain ⟨node, hwalk, hnode, hval⟩ := chainLink_elim store r
        (braceStr r') hl
      have hwc := walkTokens_imp_walkCSS _ _ _ hwalk
      have hok' : chainInnersOK (r' :: rest) = true := by
        simp only [chainInnersOK, List.all_cons, Bool.and_eq_true] at hok ⊢
        exact hok.2
      have hokr : (!r.data.isEmpty && r.data.all nonBrace) = true := by
        simp only [chainInnersOK, List.all_cons, Bool.and_eq_true] at hok
        simp [hok.1]
      obtain ⟨f1, rfl⟩ : ∃ f1, f = f1 + 1 := ⟨f - 1, by omega⟩
      rw [List.headD_cons, braceStr_data]
      have hcb : rcRun store f1 (.callb r.data) = some lit.data := by
        obtain ⟨f2, rfl⟩ : ∃ f2, f1 = f2 + 1 := ⟨f1 - 1, by simp at hf; omega⟩
        have ih := rcRun_chain store (r' :: rest) lit f2 hcrest hok'
          (by simp at hf ⊢; omega)
        rw [List.headD_cons] at ih
        simp [rcRun, hwc, hnode, definedProp, hval, isBraced_braceStr, ih]
      have hpost : rcRun store f1 (.text []) = some [] := by
        obtain ⟨f2, rfl⟩ : ∃ f2, f1 = f2 + 1 := ⟨f1 - 1, by simp at hf; omega⟩
        rfl
      rw [Bool.and_eq_true] at hokr
      have := rcRun_text_replace store [] r.data [] lit.data [] f1
        (by simp) ?_ ?_ hcb hpost
      · simpa using this
      · intro he
        have h1 := hokr.1
        rw [he] at h1
        simp at h1
      · intro c hcm
        have h2 := hokr.2
        rw [List.all_eq_true] at h2
        exact h2 c hcm

/-- C7: the Text-Reference Rewriter applies no depth ceiling — for every
store and every resolvable reference chain of any finite length (including
lengths far beyond 10, where the structured resolver of §4.2 hits its
ceiling), some finite recursion budget makes the rewriter terminate with
the chain's final literal value. -/
theorem C7_rewriter_no_depth_cap (store : JVal) (rs : List String)
    (lit : String) (hc : chainB store rs lit = true)
    (hok : chainInnersOK rs = true) :
    ∃ fuel,
      resolveCSSReferences fuel (braceStr (rs.headD "")) store =
        some lit := by
  refine ⟨2 * rs.length + 1, ?_⟩
  unfold resolveCSSReferences
  rw [rcRun_chain store rs lit (2 * rs.length + 1) hc hok (le_refl _)]
  rfl

/-- A 12-link reference chain `d1 → … → d12 → "#07c"` — longer than the
structured resolver's ceiling of 10. -/
def c7ChainStore : JVal :=
  .obj [("d1", .obj [("$value", .str "{d2}")]),
        ("d2", .obj [("$value", .str "{d3}")]),
        ("d3", .obj [("$value", .str "{d4}")]),
        ("d4", .obj [("$value", .str "{d5}")]),
        ("d5", .obj [("$value", .str "{d6}")]),
        ("d6", .obj [("$value", .str "{d7}")]),
        ("d7", .obj [("$value", .str "{d8}")]),
        ("d8", .obj [("$value", .str "{d9}")]),
        ("d9", .obj [("$value", .str "{d10}")]),
        ("d10", .obj [("$value", .str "{d11}")]),
        ("d11", .obj [("$value", .str "{d12}")]),
        ("d12", .obj [("$value", .str "#07c")])]

/-- The names of the 12-link chain in `c7ChainStore`. -/
def c7Names : List String :=
  ["d1", "d2", "d3", "d4", "d5", "d6", "d7", "d8", "d9", "d10", "d11", "d12"]

/-- C7 witness: the rewriter fully resolves the 12-link chain (length 12 >
10) to its final literal. -/
theorem C7_rewriter_no_depth_cap_witness :
    chainB c7ChainStore c7Names "#07c" = true ∧
    ∃ fuel,
      resolveCSSReferences fuel (braceStr "d1") c7ChainStore = some "#07c" :=
  ⟨by decide,
   C7_rewriter_no_depth_cap c7ChainStore c7Names "#07c" (by decide)
     (by decide)⟩
